import Mathlib

/-!
Verification development for the screen-based vertex/face pick-walker
(`__init__.py`).  The geometric core (candidate scoring, per-origin
walking, the two-phase selection transition and the mode dispatcher) is
embedded shallowly: screen points are exact rational pairs, the host's
world-to-screen projection and the mesh topology are opaque parameters,
and the float arithmetic of the source is read as exact real arithmetic.
Square roots make the score a real number; to keep every definition
executable, admissibility and score comparisons are implemented by
equivalent sign/square tests over ℚ, and lemmas prove each such test
equal to the real-number comparison the source performs.
-/

namespace Pickwalk

/-- A 2D screen point / vector, as produced by `location_3d_to_region_2d`. -/
abbrev Pt := ℚ × ℚ

/-- Squared euclidean length of a screen vector (`delta.length ** 2`). -/
def sqQ (d : Pt) : ℚ := d.1 ^ 2 + d.2 ^ 2

/-- Raw dot product of two screen vectors. -/
def dotQ (d dir : Pt) : ℚ := d.1 * dir.1 + d.2 * dir.2

/-- Numerator of the score when written over the common denominator
`delta.length`: `score = (10·(delta·dir) − |delta|²) / |delta|`. -/
def scoreNumQ (d dir : Pt) : ℚ := 10 * dotQ d dir - sqQ d

/-- `delta.normalized().dot(direction)` as an exact real number. -/
noncomputable def dotR (d dir : Pt) : ℝ := (dotQ d dir : ℝ) / Real.sqrt (sqQ d)

/-- The score `dot * 10.0 - dist` computed by the source, as an exact
real number (`dist = delta.length`). -/
noncomputable def scoreR (d dir : Pt) : ℝ := dotR d dir * 10 - Real.sqrt (sqQ d)

/-- Decidable form of the admission test `dot >= 0.3` of the source:
for `|delta| > 0`, `(delta·dir)/|delta| ≥ 3/10` iff the raw dot is
positive and `100·(delta·dir)² ≥ 9·|delta|²`. -/
def dotGE (d dir : Pt) : Bool :=
  decide (0 < dotQ d dir) && decide (9 * sqQ d ≤ 100 * dotQ d dir ^ 2)

/-- Decidable form of the strict score comparison `a/√L1 > b/√L2`
(for `L1, L2 > 0`), by sign analysis and squaring. -/
def ratSqrtGt (a L1 b L2 : ℚ) : Bool :=
  if b < 0 then
    (if 0 ≤ a then true else decide (a ^ 2 * L2 < b ^ 2 * L1))
  else
    (if a ≤ 0 then false else decide (b ^ 2 * L1 < a ^ 2 * L2))

/-- Decidable form of `score(d1) > score(d2)` (the `score > best_score`
test of the source), both deltas nonzero. -/
def scoreGtB (dir d1 d2 : Pt) : Bool :=
  ratSqrtGt (scoreNumQ d1 dir) (sqQ d1) (scoreNumQ d2 dir) (sqQ d2)

lemma sqQ_nonneg (d : Pt) : 0 ≤ sqQ d := by
  have h1 : (0:ℚ) ≤ d.1 ^ 2 := sq_nonneg _
  have h2 : (0:ℚ) ≤ d.2 ^ 2 := sq_nonneg _
  simpa [sqQ] using add_nonneg h1 h2

lemma sqQ_eq_zero_iff (d : Pt) : sqQ d = 0 ↔ d = (0, 0) := by
  obtain ⟨x, y⟩ := d
  simp only [sqQ, Prod.mk.injEq]
  constructor
  · intro h
    constructor
    · nlinarith [sq_nonneg x, sq_nonneg y]
    · nlinarith [sq_nonneg x, sq_nonneg y]
  · rintro ⟨rfl, rfl⟩
    ring

lemma sqQ_pos_of_ne (d : Pt) (h : sqQ d ≠ 0) : 0 < sqQ d :=
  lt_of_le_of_ne (sqQ_nonneg d) (Ne.symm h)

lemma sqrt_sqQ_pos (d : Pt) (h : sqQ d ≠ 0) : 0 < Real.sqrt (sqQ d) := by
  have := sqQ_pos_of_ne d h
  exact Real.sqrt_pos.mpr (by exact_mod_cast this)

lemma sq_sqrt_sqQ (d : Pt) : Real.sqrt (sqQ d) ^ 2 = (sqQ d : ℝ) :=
  Real.sq_sqrt (by exact_mod_cast sqQ_nonneg d)

/-- The decidable admission test agrees with the real comparison
`normalize(delta) · dir ≥ 0.3` whenever the delta is nonzero. -/
lemma dotGE_iff (d dir : Pt) (h : sqQ d ≠ 0) :
    dotGE d dir = true ↔ (3 / 10 : ℝ) ≤ dotR d dir := by
  have hs : 0 < Real.sqrt (sqQ d) := sqrt_sqQ_pos d h
  have hsq : Real.sqrt (sqQ d) ^ 2 = (sqQ d : ℝ) := sq_sqrt_sqQ d
  have hL : (0:ℝ) < (sqQ d : ℝ) := by
    exact_mod_cast sqQ_pos_of_ne d h
  constructor
  · intro hb
    have hb' := hb
    simp only [dotGE, Bool.and_eq_true, decide_eq_true_eq] at hb'
    obtain ⟨hp, hsqle⟩ := hb'
    have hpR : (0:ℝ) < (dotQ d dir : ℝ) := by exact_mod_cast hp
    have hsqleR : 9 * (sqQ d : ℝ) ≤ 100 * (dotQ d dir : ℝ) ^ 2 := by
      exact_mod_cast hsqle
    rw [dotR, le_div_iff₀ hs]
    nlinarith [hs, hsq, hpR, hsqleR, Real.sqrt_nonneg ((sqQ d : ℚ) : ℝ)]
  · intro hr
    rw [dotR, le_div_iff₀ hs] at hr
    have hp : (0:ℝ) < (dotQ d dir : ℝ) := by nlinarith [hs]
    have hsqle : 9 * (sqQ d : ℝ) ≤ 100 * (dotQ d dir : ℝ) ^ 2 := by
      nlinarith [hsq, hs]
    simp only [dotGE, Bool.and_eq_true, decide_eq_true_eq]
    constructor
    · exact_mod_cast hp
    · exact_mod_cast hsqle

/-- The real score equals `scoreNumQ / √sqQ`. -/
lemma scoreR_eq (d dir : Pt) (h : sqQ d ≠ 0) :
    scoreR d dir = (scoreNumQ d dir : ℝ) / Real.sqrt (sqQ d) := by
  have hs : 0 < Real.sqrt (sqQ d) := sqrt_sqQ_pos d h
  have hsq : Real.sqrt (sqQ d) ^ 2 = (sqQ d : ℝ) := sq_sqrt_sqQ d
  rw [scoreR, dotR, scoreNumQ]
  field_simp
  nlinarith [hsq]

/-- The decidable comparison `ratSqrtGt` agrees with the strict real
comparison `b/√L2 < a/√L1` for positive `L1`, `L2`. -/
lemma ratSqrtGt_iff (a L1 b L2 : ℚ) (h1 : 0 < L1) (h2 : 0 < L2) :
    ratSqrtGt a L1 b L2 = true ↔
      (b : ℝ) / Real.sqrt L2 < (a : ℝ) / Real.sqrt L1 := by
  have hs1 : (0:ℝ) < Real.sqrt L1 := Real.sqrt_pos.mpr (by exact_mod_cast h1)
  have hs2 : (0:ℝ) < Real.sqrt L2 := Real.sqrt_pos.mpr (by exact_mod_cast h2)
  have hsq1 : Real.sqrt L1 ^ 2 = (L1 : ℝ) :=
    Real.sq_sqrt (by exact_mod_cast h1.le)
  have hsq2 : Real.sqrt L2 ^ 2 = (L2 : ℝ) :=
    Real.sq_sqrt (by exact_mod_cast h2.le)
  rw [div_lt_div_iff₀ hs2 hs1]
  unfold ratSqrtGt
  by_cases hb : b < 0
  · simp only [hb, if_true]
    have hbR : (b:ℝ) < 0 := by exact_mod_cast hb
    by_cases ha : 0 ≤ a
    · simp only [ha, if_true, true_iff]
      have haR : (0:ℝ) ≤ (a:ℝ) := by exact_mod_cast ha
      have hneg : (b:ℝ) * Real.sqrt L1 < 0 := mul_neg_of_neg_of_pos hbR hs1
      have hpos : (0:ℝ) ≤ (a:ℝ) * Real.sqrt L2 := mul_nonneg haR hs2.le
      linarith
    · simp only [ha, if_false, decide_eq_true_eq]
      have haR : (a:ℝ) < 0 := by
        have h0 : a < 0 := lt_of_not_le ha
        exact_mod_cast h0
      have hflip : ((b:ℝ) * Real.sqrt L1 < (a:ℝ) * Real.sqrt L2) ↔
          ((-(a:ℝ)) * Real.sqrt L2 < (-(b:ℝ)) * Real.sqrt L1) := by
        constructor <;> intro h <;> nlinarith [h]
      have hsq : ((-(a:ℝ)) * Real.sqrt L2 < (-(b:ℝ)) * Real.sqrt L1) ↔
          (a:ℝ) ^ 2 * (L2:ℝ) < (b:ℝ) ^ 2 * (L1:ℝ) := by
        rw [← pow_lt_pow_iff_left₀
          (mul_nonneg (by linarith) hs2.le) (mul_nonneg (by linarith) hs1.le)
          (by norm_num : (2:ℕ) ≠ 0)]
        rw [mul_pow, mul_pow, hsq1, hsq2]
        constructor <;> intro h <;> nlinarith [h]
      rw [hflip, hsq]
      exact ⟨fun h => by exact_mod_cast h, fun h => by exact_mod_cast h⟩
  · simp only [hb, if_false]
    have hbR : (0:ℝ) ≤ (b:ℝ) := by
      have h0 : 0 ≤ b := le_of_not_lt hb
      exact_mod_cast h0
    by_cases ha : a ≤ 0
    · simp only [ha, if_true, Bool.false_eq_true, false_iff, not_lt]
      have haR : (a:ℝ) ≤ 0 := by exact_mod_cast ha
      have h1' : (a:ℝ) * Real.sqrt L2 ≤ 0 := mul_nonpos_of_nonpos_of_nonneg haR hs2.le
      have h2' : (0:ℝ) ≤ (b:ℝ) * Real.sqrt L1 := mul_nonneg hbR hs1.le
      linarith
    · simp only [ha, if_false, decide_eq_true_eq]
      have haR : (0:ℝ) < (a:ℝ) := by
        have h0 : 0 < a := lt_of_not_le ha
        exact_mod_cast h0
      have hsq : ((b:ℝ) * Real.sqrt L1 < (a:ℝ) * Real.sqrt L2) ↔
          (b:ℝ) ^ 2 * (L1:ℝ) < (a:ℝ) ^ 2 * (L2:ℝ) := by
        rw [← pow_lt_pow_iff_left₀
          (mul_nonneg hbR hs1.le) (mul_nonneg haR.le hs2.le)
          (by norm_num : (2:ℕ) ≠ 0)]
        rw [mul_pow, mul_pow, hsq1, hsq2]
      rw [hsq]
      exact ⟨fun h => by exact_mod_cast h, fun h => by exact_mod_cast h⟩

/-- The decidable score comparison agrees with the real one. -/
lemma scoreGtB_iff (dir d1 d2 : Pt) (h1 : sqQ d1 ≠ 0) (h2 : sqQ d2 ≠ 0) :
    scoreGtB dir d1 d2 = true ↔ scoreR d2 dir < scoreR d1 dir := by
  rw [scoreGtB, ratSqrtGt_iff _ _ _ _ (sqQ_pos_of_ne d1 h1) (sqQ_pos_of_ne d2 h2),
    scoreR_eq d1 dir h1, scoreR_eq d2 dir h2]

/-! ## Topology and projection

Mesh elements are identified by natural-number ids (bmesh element
identity).  The host supplies, per kind, the neighbor enumeration and
the composed world/screen projection `location_3d_to_region_2d` (which
may fail, returning `none`). -/

/-- Vertex-kind topology: `nbrs v` lists `e.other_vert(v)` over
`v.link_edges` in enumeration order; `proj v` is the screen projection
of `matrix_world @ v.co`. -/
structure VTopo where
  nbrs : Nat → List Nat
  proj : Nat → Option Pt

/-- Face-kind topology: `fedges f` lists the edge ids of `f.edges`,
`elinkFaces e` the face ids of `e.link_faces`, and `proj f` the screen
projection of the face's median center. -/
structure FTopo where
  fedges : Nat → List Nat
  elinkFaces : Nat → List Nat
  proj : Nat → Option Pt

/-- Keep the first occurrence of each element (the `set` built by the
face walker, read in insertion order). -/
def dedupFirst : List Nat → List Nat
  | [] => []
  | x :: xs => x :: dedupFirst (xs.filter (fun y => y ≠ x))
termination_by l => l.length
decreasing_by
  simp only [List.length_cons]
  exact Nat.lt_succ_of_le (List.length_filter_le _ _)

/-- `neighbor_faces` of the source: faces sharing an edge with `f`,
excluding `f` itself, each face once. -/
def neighborFaces (T : FTopo) (f : Nat) : List Nat :=
  dedupFirst (((T.fedges f).map (fun e => (T.elinkFaces e).filter (fun nf => nf ≠ f))).flatten)

/-- The screen-space delta `candidate2d - origin2d`. -/
def deltaTo (a2d p : Pt) : Pt := (p.1 - a2d.1, p.2 - a2d.2)

/-- One iteration of the candidate loop of `walk_single_vertex` /
`walk_single_face`: skip an unprojectable neighbor, skip a zero delta,
skip `dot < 0.3`, otherwise keep the strictly better of the running
best and the candidate (the running best also records its delta, which
determines its score). -/
def consider (proj : Nat → Option Pt) (dir a2d : Pt)
    (best : Option (Nat × Pt)) (nv : Nat) : Option (Nat × Pt) :=
  match proj nv with
  | none => best
  | some v2d =>
    let delta := deltaTo a2d v2d
    if sqQ delta = 0 then best
    else if dotGE delta dir then
      match best with
      | none => some (nv, delta)
      | some b => if scoreGtB dir delta b.2 then some (nv, delta) else best
    else best

/-- The per-origin walker, generic over the neighbor enumeration:
project the origin (`none` if unprojectable), fold the candidate loop
over the neighbors, return the best neighbor's id. -/
def walkCore (nbrs : Nat → List Nat) (proj : Nat → Option Pt)
    (dir : Pt) (v : Nat) : Option Nat :=
  match proj v with
  | none => none
  | some a2d => ((nbrs v).foldl (consider proj dir a2d) none).map Prod.fst

/-- `walk_single_vertex` of the source. -/
def walk_single_vertex (T : VTopo) (dir : Pt) (v : Nat) : Option Nat :=
  walkCore T.nbrs T.proj dir v

/-- `walk_single_face` of the source. -/
def walk_single_face (T : FTopo) (dir : Pt) (f : Nat) : Option Nat :=
  walkCore (neighborFaces T) T.proj dir f

/-- Admissibility of a screen delta: nonzero and `dot ≥ 0.3` — the two
rejection tests of the candidate scorer. -/
def admDelta (d dir : Pt) : Bool :=
  decide (sqQ d ≠ 0) && dotGE d dir

/-- Admissibility of neighbor `n` as seen from origin screen point
`a2d`: projectable, nonzero delta, and `dot ≥ 0.3`. -/
def admB (proj : Nat → Option Pt) (dir a2d : Pt) (n : Nat) : Bool :=
  match proj n with
  | none => false
  | some p => admDelta (deltaTo a2d p) dir

/-- The (real) score of neighbor `n` as seen from `a2d`; `0` when
unprojectable (never used in that case). -/
noncomputable def candScoreR (proj : Nat → Option Pt) (dir a2d : Pt) (n : Nat) : ℝ :=
  match proj n with
  | none => 0
  | some p => scoreR (deltaTo a2d p) dir

lemma admB_elim (proj : Nat → Option Pt) (dir a2d : Pt) (n : Nat)
    (h : admB proj dir a2d n = true) :
    ∃ p, proj n = some p ∧ sqQ (deltaTo a2d p) ≠ 0 ∧
      dotGE (deltaTo a2d p) dir = true := by
  unfold admB admDelta at h
  cases hp : proj n with
  | none => rw [hp] at h; simp at h
  | some p =>
      rw [hp] at h
      simp only [Bool.and_eq_true, decide_eq_true_eq] at h
      exact ⟨p, rfl, h.1, h.2⟩

lemma candScoreR_of_proj (proj : Nat → Option Pt) (dir a2d : Pt) (n : Nat) (p : Pt)
    (h : proj n = some p) :
    candScoreR proj dir a2d n = scoreR (deltaTo a2d p) dir := by
  simp [candScoreR, h]

/-- Loop invariant for the candidate fold: after processing `pre`, the
accumulator is `none` iff no processed neighbor was admissible, and
otherwise records the first processed neighbor of strictly maximal
score, together with its screen delta. -/
def BestInv (proj : Nat → Option Pt) (dir a2d : Pt)
    (pre : List Nat) : Option (Nat × Pt) → Prop
  | none => ∀ n ∈ pre, admB proj dir a2d n = false
  | some bd =>
      (∃ p, proj bd.1 = some p ∧ bd.2 = deltaTo a2d p) ∧
      admB proj dir a2d bd.1 = true ∧
      ∃ l1 l2, pre = l1 ++ bd.1 :: l2 ∧
        (∀ n ∈ l1, admB proj dir a2d n = true →
          candScoreR proj dir a2d n < candScoreR proj dir a2d bd.1) ∧
        (∀ n ∈ l2, admB proj dir a2d n = true →
          candScoreR proj dir a2d n ≤ candScoreR proj dir a2d bd.1)

lemma BestInv_extend_false (proj : Nat → Option Pt) (dir a2d : Pt)
    (pre : List Nat) (acc : Option (Nat × Pt)) (n : Nat)
    (h : BestInv proj dir a2d pre acc) (hn : admB proj dir a2d n = false) :
    BestInv proj dir a2d (pre ++ [n]) acc := by
  cases acc with
  | none =>
      intro m hm
      rcases List.mem_append.mp hm with hm1 | hm2
      · exact h m hm1
      · rw [List.mem_singleton.mp hm2]; exact hn
  | some bd =>
      obtain ⟨hproj, hadm, l1, l2, hpre, hl1, hl2⟩ := h
      refine ⟨hproj, hadm, l1, l2 ++ [n], by rw [hpre]; simp, hl1, ?_⟩
      intro m hm hmadm
      rcases List.mem_append.mp hm with hm1 | hm2
      · exact hl2 m hm1 hmadm
      · rw [List.mem_singleton.mp hm2] at hmadm
        rw [hn] at hmadm
        simp at hmadm

lemma considerInv (proj : Nat → Option Pt) (dir a2d : Pt)
    (pre : List Nat) (acc : Option (Nat × Pt)) (n : Nat)
    (h : BestInv proj dir a2d pre acc) :
    BestInv proj dir a2d (pre ++ [n]) (consider proj dir a2d acc n) := by
  cases hp : proj n with
  | none =>
      have heq : consider proj dir a2d acc n = acc := by simp [consider, hp]
      rw [heq]
      exact BestInv_extend_false proj dir a2d pre acc n h (by simp [admB, admDelta, hp])
  | some p =>
      by_cases hz : sqQ (deltaTo a2d p) = 0
      · have heq : consider proj dir a2d acc n = acc := by simp [consider, hp, hz]
        rw [heq]
        exact BestInv_extend_false proj dir a2d pre acc n h (by simp [admB, admDelta, hp, hz])
      · cases hd : dotGE (deltaTo a2d p) dir with
        | false =>
            have heq : consider proj dir a2d acc n = acc := by
              simp [consider, hp, hz, hd]
            rw [heq]
            exact BestInv_extend_false proj dir a2d pre acc n h
              (by simp [admB, admDelta, hp, hz, hd])
        | true =>
            have hadm : admB proj dir a2d n = true := by simp [admB, admDelta, hp, hz, hd]
            have hcn : candScoreR proj dir a2d n = scoreR (deltaTo a2d p) dir :=
              candScoreR_of_proj proj dir a2d n p hp
            cases acc with
            | none =>
                have heq : consider proj dir a2d none n = some (n, deltaTo a2d p) := by
                  simp [consider, hp, hz, hd]
                rw [heq]
                refine ⟨⟨p, hp, rfl⟩, hadm, pre, [], by simp, ?_, by simp⟩
                intro m hm hmadm
                rw [h m hm] at hmadm
                simp at hmadm
            | some b =>
                obtain ⟨⟨q, hq, hbq⟩, hbadm, l1, l2, hpre, hl1, hl2⟩ := h
                have hbz : sqQ b.2 ≠ 0 := by
                  obtain ⟨q2, hq2, hz2, _⟩ := admB_elim proj dir a2d b.1 hbadm
                  rw [hq] at hq2
                  rw [hbq, Option.some_inj.mp hq2]
                  exact hz2
                have hcb : candScoreR proj dir a2d b.1 = scoreR b.2 dir := by
                  rw [candScoreR_of_proj proj dir a2d b.1 q hq, hbq]
                cases hcmp : scoreGtB dir (deltaTo a2d p) b.2 with
                | true =>
                    have heq : consider proj dir a2d (some b) n
                        = some (n, deltaTo a2d p) := by
                      simp [consider, hp, hz, hd, hcmp]
                    rw [heq]
                    have hlt : scoreR b.2 dir < scoreR (deltaTo a2d p) dir :=
                      (scoreGtB_iff dir (deltaTo a2d p) b.2 hz hbz).mp hcmp
                    refine ⟨⟨p, hp, rfl⟩, hadm, pre, [], by simp, ?_, by simp⟩
                    intro m hm hmadm
                    rw [hcn]
                    rw [hpre] at hm
                    rcases List.mem_append.mp hm with hm1 | hm2
                    · exact lt_trans (hcb ▸ hl1 m hm1 hmadm) hlt
                    · rcases List.mem_cons.mp hm2 with hmb | hml2
                      · rw [hmb, hcb]; exact hlt
                      · exact lt_of_le_of_lt (hcb ▸ hl2 m hml2 hmadm) hlt
                | false =>
                    have heq : consider proj dir a2d (some b) n = some b := by
                      simp [consider, hp, hz, hd, hcmp]
                    rw [heq]
                    have hle : scoreR (deltaTo a2d p) dir ≤ scoreR b.2 dir := by
                      by_contra hcon
                      push_neg at hcon
                      have hc := (scoreGtB_iff dir (deltaTo a2d p) b.2 hz hbz).mpr hcon
                      rw [hcmp] at hc
                      simp at hc
                    refine ⟨⟨q, hq, hbq⟩, hbadm, l1, l2 ++ [n],
                      by rw [hpre]; simp, hl1, ?_⟩
                    intro m hm hmadm
                    rcases List.mem_append.mp hm with hm1 | hm2
                    · exact hl2 m hm1 hmadm
                    · rw [List.mem_singleton.mp hm2]
                      rw [hcn, hcb]
                      exact hle

lemma foldl_considerInv (proj : Nat → Option Pt) (dir a2d : Pt) :
    ∀ (l pre : List Nat) (acc : Option (Nat × Pt)),
      BestInv proj dir a2d pre acc →
      BestInv proj dir a2d (pre ++ l) (l.foldl (consider proj dir a2d) acc)
  | [], pre, acc, h => by simpa using h
  | n :: l, pre, acc, h => by
      have h1 := considerInv proj dir a2d pre acc n h
      have h2 := foldl_considerInv proj dir a2d l (pre ++ [n]) _ h1
      simpa [List.append_assoc] using h2

lemma walkCore_inv (nbrs : Nat → List Nat) (proj : Nat → Option Pt)
    (dir : Pt) (v : Nat) (a2d : Pt) :
    BestInv proj dir a2d (nbrs v) ((nbrs v).foldl (consider proj dir a2d) none) := by
  have h0 : BestInv proj dir a2d [] none := by
    intro n hn
    simp at hn
  simpa using foldl_considerInv proj dir a2d (nbrs v) [] none h0

/-- An unprojectable origin yields no target. -/
lemma walkCore_proj_none (nbrs : Nat → List Nat) (proj : Nat → Option Pt)
    (dir : Pt) (v : Nat) (h : proj v = none) :
    walkCore nbrs proj dir v = none := by
  simp [walkCore, h]

/-- With a projectable origin, the walker returns `none` iff no
neighbor is admissible. -/
lemma walkCore_none_iff (nbrs : Nat → List Nat) (proj : Nat → Option Pt)
    (dir : Pt) (v : Nat) (a2d : Pt) (h : proj v = some a2d) :
    walkCore nbrs proj dir v = none ↔
      ∀ n ∈ nbrs v, admB proj dir a2d n = false := by
  have hinv := walkCore_inv nbrs proj dir v a2d
  cases hfold : (nbrs v).foldl (consider proj dir a2d) none with
  | none =>
      rw [hfold] at hinv
      simp only [walkCore, h, hfold, Option.map_none', true_iff]
      exact hinv
  | some bd =>
      rw [hfold] at hinv
      obtain ⟨_, hadm, l1, l2, hpre, _, _⟩ := hinv
      simp only [walkCore, h, hfold, Option.map_some']
      constructor
      · intro hc; simp at hc
      · intro hall
        have hmem : bd.1 ∈ nbrs v := by rw [hpre]; simp
        rw [hall bd.1 hmem] at hadm
        simp at hadm

/-- With a projectable origin, a returned target is an admissible
neighbor of strictly maximal score, the first enumerated among
score ties. -/
lemma walkCore_some (nbrs : Nat → List Nat) (proj : Nat → Option Pt)
    (dir : Pt) (v : Nat) (a2d : Pt) (t : Nat) (h : proj v = some a2d)
    (ht : walkCore nbrs proj dir v = some t) :
    admB proj dir a2d t = true ∧
    ∃ l1 l2, nbrs v = l1 ++ t :: l2 ∧
      (∀ n ∈ l1, admB proj dir a2d n = true →
        candScoreR proj dir a2d n < candScoreR proj dir a2d t) ∧
      (∀ n ∈ l2, admB proj dir a2d n = true →
        candScoreR proj dir a2d n ≤ candScoreR proj dir a2d t) := by
  have hinv := walkCore_inv nbrs proj dir v a2d
  cases hfold : (nbrs v).foldl (consider proj dir a2d) none with
  | none =>
      rw [walkCore, h] at ht
      simp only [hfold, Option.map_none'] at ht
      exact absurd ht (by simp)
  | some bd =>
      rw [walkCore, h] at ht
      simp only [hfold, Option.map_some'] at ht
      rw [hfold] at hinv
      obtain ⟨_, hadm, l1, l2, hpre, hl1, hl2⟩ := hinv
      rw [← Option.some_inj.mp ht]
      exact ⟨hadm, l1, l2, hpre, hl1, hl2⟩

/-- A returned target always comes from the neighbor enumeration. -/
lemma walkCore_mem (nbrs : Nat → List Nat) (proj : Nat → Option Pt)
    (dir : Pt) (v : Nat) (t : Nat) (ht : walkCore nbrs proj dir v = some t) :
    t ∈ nbrs v := by
  cases h : proj v with
  | none => rw [walkCore_proj_none nbrs proj dir v h] at ht; simp at ht
  | some a2d =>
      obtain ⟨_, l1, l2, hpre, _, _⟩ := walkCore_some nbrs proj dir v a2d t h ht
      rw [hpre]; simp

/-! ## Selection state and the transition engine -/

/-- A mesh element as stored in the selection history: a vertex, edge
or face handle (`BMVert` / `BMEdge` / `BMFace`). -/
inductive Elem
  | vert (id : Nat)
  | edge (id : Nat)
  | face (id : Nat)
deriving DecidableEq, Repr

/-- The host's selection state: the selected ids of each kind and the
selection-history stack (most recent last). -/
structure SelState where
  selV : Finset Nat
  selE : Finset Nat
  selF : Finset Nat
  hist : List Elem
deriving DecidableEq

/-- `bm.select_history.active`: the most recently added element. -/
def SelState.active (s : SelState) : Option Elem := s.hist.getLast?

/-- `selected_verts`: the selected vertices in `bm.verts` order. -/
def selectedV (verts : List Nat) (s : SelState) : List Nat :=
  verts.filter (fun v => v ∈ s.selV)

/-- `selected_faces`: the selected faces in `bm.faces` order. -/
def selectedF (faces : List Nat) (s : SelState) : List Nat :=
  faces.filter (fun f => f ∈ s.selF)

/-- The active fix-up of `walk_vertices`: keep the history's active if
it is a vertex and selected, else fall back to `selected_verts[0]`. -/
def fixActiveV (sel : Finset Nat) (selected : List Nat) : Option Elem → Nat
  | some (Elem.vert a) => if a ∈ sel then a else selected.headI
  | _ => selected.headI

/-- The active fix-up of `walk_faces`: keep the history's active if it
is a face and selected, else fall back to `selected_faces[0]`. -/
def fixActiveF (sel : Finset Nat) (selected : List Nat) : Option Elem → Nat
  | some (Elem.face a) => if a ∈ sel then a else selected.headI
  | _ => selected.headI

/-- `moved_origins`: the origins for which the walker found a target. -/
def movedOf (walk : Nat → Option Nat) (origin : Finset Nat) : Finset Nat :=
  origin.filter (fun v => (walk v).isSome)

/-- `target_verts` / `target_faces`: the set of returned targets. -/
def targetsOf (walk : Nat → Option Nat) (origin : Finset Nat) : Finset Nat :=
  origin.biUnion (fun v => (walk v).toFinset)

/-- `final_selection = (origin_set − moved_origins) ∪ targets`. -/
def finalOf (walk : Nat → Option Nat) (origin : Finset Nat) : Finset Nat :=
  (origin \ movedOf walk origin) ∪ targetsOf walk origin

/-- The fixed-up active vertex of one `walk_vertices` invocation. -/
def activeVfix (verts : List Nat) (s : SelState) : Nat :=
  fixActiveV s.selV (selectedV verts s) s.active

/-- `active_target` of `walk_vertices`: the target recorded when the
loop reaches the active origin (stays `None` when the active is not an
origin or found no target). -/
def activeTargetV (T : VTopo) (verts : List Nat) (dir : Pt) (s : SelState) : Option Nat :=
  if activeVfix verts s ∈ (selectedV verts s).toFinset then
    walk_single_vertex T dir (activeVfix verts s)
  else none

/-- `new_active` of `walk_vertices`. -/
def newActiveV (T : VTopo) (verts : List Nat) (dir : Pt) (s : SelState) : Nat :=
  (activeTargetV T verts dir s).getD (activeVfix verts s)

/-- `final_selection` of `walk_vertices`. -/
def finalSelV (T : VTopo) (verts : List Nat) (dir : Pt) (s : SelState) : Finset Nat :=
  finalOf (walk_single_vertex T dir) (selectedV verts s).toFinset

/-- `walk_vertices` of the source: cancel on empty selection, otherwise
compute all targets against the unmutated snapshot and commit — clear
every vertex, edge and face selection, select exactly the final
selection plus the new active, and replace the history with the new
active.  `none` models `{'CANCELLED'}`. -/
def walk_vertices (T : VTopo) (verts : List Nat) (dir : Pt) (s : SelState) :
    Option SelState :=
  if selectedV verts s = [] then none
  else if finalSelV T verts dir s = ∅ then none
  else
    some { selV := insert (newActiveV T verts dir s) (finalSelV T verts dir s),
           selE := ∅, selF := ∅,
           hist := [Elem.vert (newActiveV T verts dir s)] }

/-- The fixed-up active face of one `walk_faces` invocation. -/
def activeFfix (faces : List Nat) (s : SelState) : Nat :=
  fixActiveF s.selF (selectedF faces s) s.active

/-- `active_target` of `walk_faces`. -/
def activeTargetF (T : FTopo) (faces : List Nat) (dir : Pt) (s : SelState) : Option Nat :=
  if activeFfix faces s ∈ (selectedF faces s).toFinset then
    walk_single_face T dir (activeFfix faces s)
  else none

/-- `new_active` of `walk_faces`. -/
def newActiveF (T : FTopo) (faces : List Nat) (dir : Pt) (s : SelState) : Nat :=
  (activeTargetF T faces dir s).getD (activeFfix faces s)

/-- `final_selection` of `walk_faces`. -/
def finalSelF (T : FTopo) (faces : List Nat) (dir : Pt) (s : SelState) : Finset Nat :=
  finalOf (walk_single_face T dir) (selectedF faces s).toFinset

/-- `walk_faces` of the source, the face-kind twin of `walk_vertices`. -/
def walk_faces (T : FTopo) (faces : List Nat) (dir : Pt) (s : SelState) :
    Option SelState :=
  if selectedF faces s = [] then none
  else if finalSelF T faces dir s = ∅ then none
  else
    some { selV := ∅, selE := ∅,
           selF := insert (newActiveF T faces dir s) (finalSelF T faces dir s),
           hist := [Elem.face (newActiveF T faces dir s)] }

/-! ## Mode dispatcher -/

/-- Which transition a dispatch delegates to. -/
inductive WalkKind
  | verts
  | faces
deriving DecidableEq, Repr

/-- Outcome of `walk_dispatch`: delegate to one kind's transition, or
reject with a typed reason (each `reject…` is one of the warning
reports of the source followed by `{'CANCELLED'}`). -/
inductive Dispatch
  | delegate (k : WalkKind)
  | rejectEdgeMode
  | rejectNoVerts
  | rejectNoFaces
  | rejectMixed
  | rejectNothing
  | rejectNoMode
deriving DecidableEq, Repr

/-- `walk_dispatch` of the source (the MIX2 rule), over the three mode
booleans of `mesh_select_mode` and the raw selected vertex/face lists. -/
def walk_dispatch (vertMode edgeMode faceMode : Bool)
    (selVerts selFaces : List Nat) : Dispatch :=
  if edgeMode then .rejectEdgeMode
  else if vertMode && !faceMode then
    (if selVerts.isEmpty then .rejectNoVerts else .delegate .verts)
  else if faceMode && !vertMode then
    (if selFaces.isEmpty then .rejectNoFaces else .delegate .faces)
  else if vertMode && faceMode then
    (if !selVerts.isEmpty && !selFaces.isEmpty then .rejectMixed
     else if !selVerts.isEmpty then .delegate .verts
     else if !selFaces.isEmpty then .delegate .faces
     else .rejectNothing)
  else .rejectNoMode

/-! ## Transition-engine lemmas -/

lemma headI_mem {l : List Nat} (h : l ≠ []) : l.headI ∈ l := by
  cases l with
  | nil => exact absurd rfl h
  | cons a l => simp [List.headI]

lemma mem_targetsOf (walk : Nat → Option Nat) (origin : Finset Nat) (x : Nat) :
    x ∈ targetsOf walk origin ↔ ∃ v ∈ origin, walk v = some x := by
  simp only [targetsOf, Finset.mem_biUnion, Option.mem_toFinset, Option.mem_def]

lemma mem_finalOf (walk : Nat → Option Nat) (origin : Finset Nat) (x : Nat) :
    x ∈ finalOf walk origin ↔
      (x ∈ origin ∧ walk x = none) ∨ ∃ v ∈ origin, walk v = some x := by
  simp only [finalOf, Finset.mem_union, Finset.mem_sdiff, movedOf,
    Finset.mem_filter, mem_targetsOf]
  constructor
  · rintro (⟨hx, hnot⟩ | h)
    · left
      refine ⟨hx, ?_⟩
      cases hw : walk x with
      | none => rfl
      | some t => exact absurd ⟨hx, by simp [hw]⟩ hnot
    · right; exact h
  · rintro (⟨hx, hnone⟩ | h)
    · left
      exact ⟨hx, fun hc => by simp [hnone] at hc⟩
    · right; exact h

/-- The final selection is never empty when the origin set is not:
every origin is retained or replaced by its target, so the dead
`if not final_selection` cancellation branch can not fire. -/
lemma finalOf_nonempty (walk : Nat → Option Nat) (origin : Finset Nat)
    (h : origin.Nonempty) : (finalOf walk origin).Nonempty := by
  obtain ⟨v, hv⟩ := h
  cases hw : walk v with
  | none => exact ⟨v, (mem_finalOf walk origin v).mpr (Or.inl ⟨hv, hw⟩)⟩
  | some t => exact ⟨t, (mem_finalOf walk origin t).mpr (Or.inr ⟨v, hv, hw⟩)⟩

/-- When no origin moves, the final selection is the origin set. -/
lemma finalOf_all_none (walk : Nat → Option Nat) (origin : Finset Nat)
    (h : ∀ v ∈ origin, walk v = none) : finalOf walk origin = origin := by
  ext x
  rw [mem_finalOf]
  constructor
  · rintro (⟨hx, _⟩ | ⟨v, hv, hw⟩)
    · exact hx
    · rw [h v hv] at hw; exact absurd hw (by simp)
  · intro hx
    exact Or.inl ⟨hx, h x hx⟩

/-- Each moved origin contributes at most one target, so the final
selection never grows. -/
lemma finalOf_card_le (walk : Nat → Option Nat) (origin : Finset Nat) :
    (finalOf walk origin).card ≤ origin.card := by
  have hsub : movedOf walk origin ⊆ origin := Finset.filter_subset _ _
  have h1 : (origin \ movedOf walk origin).card
      = origin.card - (movedOf walk origin).card := Finset.card_sdiff hsub
  have h2 : (targetsOf walk origin).card ≤ (movedOf walk origin).card := by
    calc (targetsOf walk origin).card
        ≤ ∑ v ∈ origin, ((walk v).toFinset).card := Finset.card_biUnion_le
      _ = ∑ v ∈ origin, (if (walk v).isSome then 1 else 0) := by
          refine Finset.sum_congr rfl (fun v _ => ?_)
          cases walk v <;> simp
      _ = (movedOf walk origin).card := (Finset.card_filter _ _).symm
  calc (finalOf walk origin).card
      ≤ (origin \ movedOf walk origin).card + (targetsOf walk origin).card :=
        Finset.card_union_le _ _
    _ ≤ (origin.card - (movedOf walk origin).card) + (movedOf walk origin).card := by
        rw [h1]; exact Nat.add_le_add_left h2 _
    _ = origin.card := Nat.sub_add_cancel (Finset.card_le_card hsub)

/-- Under the bmesh well-formedness assumption that every selected
vertex id is a mesh vertex, the selected list enumerates exactly the
selection set. -/
lemma selectedV_toFinset (verts : List Nat) (s : SelState)
    (hwf : s.selV ⊆ verts.toFinset) :
    (selectedV verts s).toFinset = s.selV := by
  ext x
  simp only [selectedV, List.toFinset_filter, Finset.mem_filter,
    List.mem_toFinset, decide_eq_true_eq]
  exact ⟨fun h => h.2, fun h => ⟨by simpa using hwf h, h⟩⟩

lemma selectedF_toFinset (faces : List Nat) (s : SelState)
    (hwf : s.selF ⊆ faces.toFinset) :
    (selectedF faces s).toFinset = s.selF := by
  ext x
  simp only [selectedF, List.toFinset_filter, Finset.mem_filter,
    List.mem_toFinset, decide_eq_true_eq]
  exact ⟨fun h => h.2, fun h => ⟨by simpa using hwf h, h⟩⟩

lemma mem_selectedV_toFinset (verts : List Nat) (s : SelState) (x : Nat) :
    x ∈ (selectedV verts s).toFinset ↔ x ∈ verts ∧ x ∈ s.selV := by
  simp [selectedV, List.mem_filter]

lemma activeVfix_mem (verts : List Nat) (s : SelState)
    (hwf : s.selV ⊆ verts.toFinset) (h : selectedV verts s ≠ []) :
    activeVfix verts s ∈ (selectedV verts s).toFinset := by
  have hhead : (selectedV verts s).headI ∈ (selectedV verts s).toFinset :=
    List.mem_toFinset.mpr (headI_mem h)
  unfold activeVfix fixActiveV
  cases hact : s.active with
  | none => exact hhead
  | some e =>
      cases e with
      | vert a =>
          by_cases ha : a ∈ s.selV
          · simp only [ha, if_true]
            rw [mem_selectedV_toFinset]
            exact ⟨by simpa using hwf ha, ha⟩
          · simp only [ha, if_false]
            exact hhead
      | edge a => exact hhead
      | face a => exact hhead

lemma mem_selectedF_toFinset (faces : List Nat) (s : SelState) (x : Nat) :
    x ∈ (selectedF faces s).toFinset ↔ x ∈ faces ∧ x ∈ s.selF := by
  simp [selectedF, List.mem_filter]

lemma activeFfix_mem (faces : List Nat) (s : SelState)
    (hwf : s.selF ⊆ faces.toFinset) (h : selectedF faces s ≠ []) :
    activeFfix faces s ∈ (selectedF faces s).toFinset := by
  have hhead : (selectedF faces s).headI ∈ (selectedF faces s).toFinset :=
    List.mem_toFinset.mpr (headI_mem h)
  unfold activeFfix fixActiveF
  cases hact : s.active with
  | none => exact hhead
  | some e =>
      cases e with
      | vert a => exact hhead
      | edge a => exact hhead
      | face a =>
          by_cases ha : a ∈ s.selF
          · simp only [ha, if_true]
            rw [mem_selectedF_toFinset]
            exact ⟨by simpa using hwf ha, ha⟩
          · simp only [ha, if_false]
            exact hhead

/-- The committed new active is always in the final selection (under
well-formedness): the active's target is a target, and an unmoved
active is retained. -/
lemma newActiveV_mem_final (T : VTopo) (verts : List Nat) (dir : Pt) (s : SelState)
    (hwf : s.selV ⊆ verts.toFinset) (h : selectedV verts s ≠ []) :
    newActiveV T verts dir s ∈ finalSelV T verts dir s := by
  have hmem := activeVfix_mem verts s hwf h
  unfold newActiveV activeTargetV
  rw [if_pos hmem]
  cases hw : walk_single_vertex T dir (activeVfix verts s) with
  | none =>
      simp only [Option.getD_none]
      exact (mem_finalOf _ _ _).mpr (Or.inl ⟨hmem, hw⟩)
  | some t =>
      simp only [Option.getD_some]
      exact (mem_finalOf _ _ _).mpr (Or.inr ⟨activeVfix verts s, hmem, hw⟩)

lemma newActiveF_mem_final (T : FTopo) (faces : List Nat) (dir : Pt) (s : SelState)
    (hwf : s.selF ⊆ faces.toFinset) (h : selectedF faces s ≠ []) :
    newActiveF T faces dir s ∈ finalSelF T faces dir s := by
  have hmem := activeFfix_mem faces s hwf h
  unfold newActiveF activeTargetF
  rw [if_pos hmem]
  cases hw : walk_single_face T dir (activeFfix faces s) with
  | none =>
      simp only [Option.getD_none]
      exact (mem_finalOf _ _ _).mpr (Or.inl ⟨hmem, hw⟩)
  | some t =>
      simp only [Option.getD_some]
      exact (mem_finalOf _ _ _).mpr (Or.inr ⟨activeFfix faces s, hmem, hw⟩)

/-- A non-empty selected list always commits (the empty-final branch is
dead code). -/
lemma walk_vertices_commit (T : VTopo) (verts : List Nat) (dir : Pt) (s : SelState)
    (h : selectedV verts s ≠ []) :
    walk_vertices T verts dir s =
      some { selV := insert (newActiveV T verts dir s) (finalSelV T verts dir s),
             selE := ∅, selF := ∅,
             hist := [Elem.vert (newActiveV T verts dir s)] } := by
  have horig : (selectedV verts s).toFinset.Nonempty := by
    cases hsel : selectedV verts s with
    | nil => exact absurd hsel h
    | cons a l => exact ⟨a, by simp [hsel]⟩
  have hfin : finalSelV T verts dir s ≠ ∅ :=
    Finset.nonempty_iff_ne_empty.mp (finalOf_nonempty _ _ horig)
  simp [walk_vertices, h, hfin]

lemma walk_faces_commit (T : FTopo) (faces : List Nat) (dir : Pt) (s : SelState)
    (h : selectedF faces s ≠ []) :
    walk_faces T faces dir s =
      some { selV := ∅, selE := ∅,
             selF := insert (newActiveF T faces dir s) (finalSelF T faces dir s),
             hist := [Elem.face (newActiveF T faces dir s)] } := by
  have horig : (selectedF faces s).toFinset.Nonempty := by
    cases hsel : selectedF faces s with
    | nil => exact absurd hsel h
    | cons a l => exact ⟨a, by simp [hsel]⟩
  have hfin : finalSelF T faces dir s ≠ ∅ :=
    Finset.nonempty_iff_ne_empty.mp (finalOf_nonempty _ _ horig)
  simp [walk_faces, h, hfin]

/-- Inversion of a committed vertex walk. -/
lemma walk_vertices_eq_some (T : VTopo) (verts : List Nat) (dir : Pt)
    (s s' : SelState) (h : walk_vertices T verts dir s = some s') :
    selectedV verts s ≠ [] ∧
    s' = { selV := insert (newActiveV T verts dir s) (finalSelV T verts dir s),
           selE := ∅, selF := ∅,
           hist := [Elem.vert (newActiveV T verts dir s)] } := by
  by_cases hsel : selectedV verts s = []
  · rw [walk_vertices, if_pos hsel] at h
    exact absurd h (by simp)
  · rw [walk_vertices_commit T verts dir s hsel] at h
    exact ⟨hsel, (Option.some_inj.mp h).symm⟩

/-- Inversion of a committed face walk. -/
lemma walk_faces_eq_some (T : FTopo) (faces : List Nat) (dir : Pt)
    (s s' : SelState) (h : walk_faces T faces dir s = some s') :
    selectedF faces s ≠ [] ∧
    s' = { selV := ∅, selE := ∅,
           selF := insert (newActiveF T faces dir s) (finalSelF T faces dir s),
           hist := [Elem.face (newActiveF T faces dir s)] } := by
  by_cases hsel : selectedF faces s = []
  · rw [walk_faces, if_pos hsel] at h
    exact absurd h (by simp)
  · rw [walk_faces_commit T faces dir s hsel] at h
    exact ⟨hsel, (Option.some_inj.mp h).symm⟩

/-! ## Concrete instances

The §8 scenario: origin at screen (0,0), neighbors at (0,10), (7,7)
and (0,−10), direction up. -/

/-- The four walk directions passed by the operators. -/
def dirUp : Pt := (0, 1)

/-- Vertex topology of the scenario: vertex 0 is linked to 1, 2, 3. -/
def sampleV : VTopo where
  nbrs := fun v => if v = 0 then [1, 2, 3] else []
  proj := fun v =>
    if v = 0 then some (0, 0)
    else if v = 1 then some (0, 10)
    else if v = 2 then some (7, 7)
    else if v = 3 then some (0, -10)
    else none

def sampleVerts : List Nat := [0, 1, 2, 3]

/-- Scenario start state: vertex 0 selected, nothing else, empty history. -/
def sampleS : SelState where
  selV := {0}
  selE := ∅
  selF := ∅
  hist := []

/-- Scenario committed state: vertex 1 selected and active. -/
def sampleS' : SelState where
  selV := {1}
  selE := ∅
  selF := ∅
  hist := [Elem.vert 1]

/-- Face topology of the scenario: face 0 shares edge 10 with face 1
and edge 11 with face 2. -/
def sampleF : FTopo where
  fedges := fun f => if f = 0 then [10, 11] else []
  elinkFaces := fun e =>
    if e = 10 then [0, 1] else if e = 11 then [0, 2] else []
  proj := fun f =>
    if f = 0 then some (0, 0)
    else if f = 1 then some (0, 10)
    else if f = 2 then some (7, 7)
    else none

def sampleFaces : List Nat := [0, 1, 2]

/-- Face-scenario start state: face 0 selected, an edge also selected. -/
def sampleSF : SelState where
  selV := ∅
  selE := ∅
  selF := {0}
  hist := []

/-- A topology in which no origin can move: no neighbors at all. -/
def isoV : VTopo where
  nbrs := fun _ => []
  proj := fun _ => some (0, 0)

/-- Start state for the no-target scenario: vertex 0 selected and also
edge 5 selected, empty history. -/
def isoS : SelState where
  selV := {0}
  selE := {5}
  selF := ∅
  hist := []

/-- The state the no-target scenario commits to. -/
def isoS' : SelState where
  selV := {0}
  selE := ∅
  selF := ∅
  hist := [Elem.vert 0]

/-- Scenario evaluation: the vertex walker picks neighbor 1 at (0,10). -/
lemma sample_walk_vertex : walk_single_vertex sampleV dirUp 0 = some 1 := by
  norm_num [walk_single_vertex, walkCore, sampleV, dirUp, consider,
    deltaTo, sqQ, dotQ, dotGE, scoreGtB, ratSqrtGt, scoreNumQ]

/-- Scenario evaluation: the face walker picks neighbor 1 at (0,10). -/
lemma sample_walk_face : walk_single_face sampleF dirUp 0 = some 1 := by
  norm_num [walk_single_face, walkCore, sampleF, dirUp, consider, neighborFaces,
    dedupFirst, deltaTo, sqQ, dotQ, dotGE, scoreGtB, ratSqrtGt, scoreNumQ]

/-- Scenario evaluation: the vertex transition commits, moving the
selection from vertex 0 to vertex 1. -/
lemma sample_commit : walk_vertices sampleV sampleVerts dirUp sampleS = some sampleS' := by
  norm_num [walk_vertices, walk_single_vertex, walkCore, sampleV, sampleVerts, dirUp,
    sampleS, sampleS', consider, deltaTo, sqQ, dotQ, dotGE, scoreGtB, ratSqrtGt,
    scoreNumQ, selectedV, finalSelV, finalOf, movedOf, targetsOf, newActiveV,
    activeTargetV, activeVfix, fixActiveV, SelState.active, List.filter,
    Finset.filter_singleton, Finset.biUnion_singleton]

/-- No-target evaluation: with no neighbors at all, the vertex
transition still commits, keeping vertex 0 selected but clearing the
edge selection and rewriting the history. -/
lemma iso_commit : walk_vertices isoV [0] dirUp isoS = some isoS' := by
  rw [isoS']
  norm_num [walk_vertices, walk_single_vertex, walkCore, isoV, dirUp,
    isoS, selectedV, finalSelV, finalOf, movedOf, targetsOf, newActiveV,
    activeTargetV, activeVfix, fixActiveV, SelState.active, List.filter,
    Finset.filter_singleton, Finset.biUnion_singleton]

/-! ## Remaining helper lemmas -/

/-- The fixed-up active vertex is always a currently selected vertex
(the kept branch requires selection; the fallback is the head of the
selected list). -/
lemma activeVfix_mem_selV (verts : List Nat) (s : SelState)
    (h : selectedV verts s ≠ []) : activeVfix verts s ∈ s.selV := by
  have hhead : (selectedV verts s).headI ∈ s.selV := by
    have hm := headI_mem h
    rw [selectedV] at hm
    simpa using (List.mem_filter.mp hm).2
  unfold activeVfix fixActiveV
  cases s.active with
  | none => exact hhead
  | some e =>
      cases e with
      | vert a =>
          by_cases ha : a ∈ s.selV
          · simp [ha]
          · simp [ha, hhead]
      | edge a => exact hhead
      | face a => exact hhead

lemma activeFfix_mem_selF (faces : List Nat) (s : SelState)
    (h : selectedF faces s ≠ []) : activeFfix faces s ∈ s.selF := by
  have hhead : (selectedF faces s).headI ∈ s.selF := by
    have hm := headI_mem h
    rw [selectedF] at hm
    simpa using (List.mem_filter.mp hm).2
  unfold activeFfix fixActiveF
  cases s.active with
  | none => exact hhead
  | some e =>
      cases e with
      | vert a => exact hhead
      | edge a => exact hhead
      | face a =>
          by_cases ha : a ∈ s.selF
          · simp [ha]
          · simp [ha, hhead]

lemma mem_dedupFirst : ∀ (l : List Nat) (x : Nat), x ∈ dedupFirst l ↔ x ∈ l
  | [], x => by simp [dedupFirst]
  | a :: l, x => by
      have ih := mem_dedupFirst (l.filter (fun y => y ≠ a)) x
      rw [dedupFirst]
      simp only [List.mem_cons, ih, List.mem_filter, decide_eq_true_eq]
      constructor
      · rintro (rfl | ⟨hx, _⟩)
        · exact Or.inl rfl
        · exact Or.inr hx
      · rintro (rfl | hx)
        · exact Or.inl rfl
        · by_cases hxa : x = a
          · exact Or.inl hxa
          · exact Or.inr ⟨hx, hxa⟩
termination_by l _ => l.length
decreasing_by
  simp only [List.length_cons]
  exact Nat.lt_succ_of_le (List.length_filter_le _ _)

/-- Membership in the face neighbor enumeration is exactly "shares an
edge with `f` and is not `f`". -/
lemma mem_neighborFaces (T : FTopo) (f x : Nat) :
    x ∈ neighborFaces T f ↔ ∃ e ∈ T.fedges f, x ∈ T.elinkFaces e ∧ x ≠ f := by
  rw [neighborFaces, mem_dedupFirst]
  simp only [List.mem_flatten, List.mem_map, List.mem_filter, decide_eq_true_eq]
  constructor
  · rintro ⟨l, ⟨e, he, rfl⟩, hx⟩
    exact ⟨e, he, (List.mem_filter.mp hx).1,
      by simpa using (List.mem_filter.mp hx).2⟩
  · rintro ⟨e, he, hx, hne⟩
    exact ⟨(T.elinkFaces e).filter (fun nf => nf ≠ f), ⟨e, he, rfl⟩,
      List.mem_filter.mpr ⟨hx, by simpa using hne⟩⟩

/-! ## Claims -/

/-- C7: the mode dispatcher produces exactly the specified outcome in
every case: edge mode always rejects; vertex-only mode delegates to the
vertex transition iff vertices are selected; face-only mode delegates to
the face transition iff faces are selected; both modes enabled rejects a
true mixed selection, delegates to the one selected kind, and rejects
when nothing is selected; no mode enabled rejects. -/
theorem C7_dispatch_cases (vm em fm : Bool) (sv sf : List Nat) :
    (em = true → walk_dispatch vm em fm sv sf = .rejectEdgeMode) ∧
    (em = false → vm = true → fm = false →
      (sv = [] → walk_dispatch vm em fm sv sf = .rejectNoVerts) ∧
      (sv ≠ [] → walk_dispatch vm em fm sv sf = .delegate .verts)) ∧
    (em = false → vm = false → fm = true →
      (sf = [] → walk_dispatch vm em fm sv sf = .rejectNoFaces) ∧
      (sf ≠ [] → walk_dispatch vm em fm sv sf = .delegate .faces)) ∧
    (em = false → vm = true → fm = true →
      (sv ≠ [] → sf ≠ [] → walk_dispatch vm em fm sv sf = .rejectMixed) ∧
      (sv ≠ [] → sf = [] → walk_dispatch vm em fm sv sf = .delegate .verts) ∧
      (sv = [] → sf ≠ [] → walk_dispatch vm em fm sv sf = .delegate .faces) ∧
      (sv = [] → sf = [] → walk_dispatch vm em fm sv sf = .rejectNothing)) ∧
    (em = false → vm = false → fm = false →
      walk_dispatch vm em fm sv sf = .rejectNoMode) := by
  refine ⟨?_, ?_, ?_, ?_, ?_⟩
  · rintro rfl
    simp [walk_dispatch]
  · rintro rfl rfl rfl
    constructor
    · rintro rfl
      simp [walk_dispatch]
    · intro hsv
      simp [walk_dispatch, List.isEmpty_iff, hsv]
  · rintro rfl rfl rfl
    constructor
    · rintro rfl
      simp [walk_dispatch]
    · intro hsf
      simp [walk_dispatch, List.isEmpty_iff, hsf]
  · rintro rfl rfl rfl
    refine ⟨?_, ?_, ?_, ?_⟩
    · intro hsv hsf
      simp [walk_dispatch, List.isEmpty_iff, hsv, hsf]
    · rintro hsv rfl
      simp [walk_dispatch, List.isEmpty_iff, hsv]
    · rintro rfl hsf
      simp [walk_dispatch, List.isEmpty_iff, hsf]
    · rintro rfl rfl
      simp [walk_dispatch]
  · rintro rfl rfl rfl
    simp [walk_dispatch]

/-- Witness for C7 at the §8 scenarios: both modes on with only
vertices selected delegates to the vertex transition; both modes on
with a vertex and a face selected rejects as mixed. -/
theorem C7_dispatch_cases_witness :
    walk_dispatch true false true [0, 1] [] = .delegate .verts ∧
    walk_dispatch true false true [0] [5] = .rejectMixed := by
  constructor
  · exact ((C7_dispatch_cases true false true [0, 1] []).2.2.2.1 rfl rfl rfl).2.1
      (by simp) rfl
  · exact ((C7_dispatch_cases true false true [0] [5]).2.2.2.1 rfl rfl rfl).1
      (by simp) (by simp)

/-- C8: before the compute phase, an absent, wrong-kind, or unselected
active element is replaced by the first element of the current selection
in enumeration order; a right-kind, selected active is kept as-is
(vertex and face transitions). -/
theorem C8_active_fixup :
    (∀ (verts : List Nat) (s : SelState) (a : Nat),
      s.active = some (Elem.vert a) → a ∈ s.selV → activeVfix verts s = a) ∧
    (∀ (verts : List Nat) (s : SelState),
      (∀ a, s.active = some (Elem.vert a) → a ∉ s.selV) →
      activeVfix verts s = (selectedV verts s).headI) ∧
    (∀ (faces : List Nat) (s : SelState) (a : Nat),
      s.active = some (Elem.face a) → a ∈ s.selF → activeFfix faces s = a) ∧
    (∀ (faces : List Nat) (s : SelState),
      (∀ a, s.active = some (Elem.face a) → a ∉ s.selF) →
      activeFfix faces s = (selectedF faces s).headI) := by
  refine ⟨?_, ?_, ?_, ?_⟩
  · intro verts s a ha hsel
    unfold activeVfix fixActiveV
    rw [ha]
    simp [hsel]
  · intro verts s h
    unfold activeVfix fixActiveV
    cases hact : s.active with
    | none => rfl
    | some e =>
        cases e with
        | vert a => simp [h a hact]
        | edge a => rfl
        | face a => rfl
  · intro faces s a ha hsel
    unfold activeFfix fixActiveF
    rw [ha]
    simp [hsel]
  · intro faces s h
    unfold activeFfix fixActiveF
    cases hact : s.active with
    | none => rfl
    | some e =>
        cases e with
        | vert a => rfl
        | edge a => rfl
        | face a => simp [h a hact]

/-- A state whose history holds selected vertex 0. -/
def keptS : SelState where
  selV := {0}
  selE := ∅
  selF := ∅
  hist := [Elem.vert 0]

/-- Witness for C8: a selected vertex active is kept; an empty history
falls back to the first selected vertex. -/
theorem C8_active_fixup_witness :
    activeVfix sampleVerts keptS = 0 ∧
    activeVfix sampleVerts sampleS = (selectedV sampleVerts sampleS).headI := by
  constructor
  · exact C8_active_fixup.1 sampleVerts keptS 0 (by simp [SelState.active, keptS])
      (by simp [keptS])
  · exact C8_active_fixup.2.1 sampleVerts sampleS
      (by simp [SelState.active, sampleS])

/-- Face-scenario committed state: face 1 selected and active. -/
def sampleSF' : SelState where
  selV := ∅
  selE := ∅
  selF := {1}
  hist := [Elem.face 1]

/-- Scenario evaluation: the face transition commits, moving the
selection from face 0 to face 1. -/
lemma sampleF_commit : walk_faces sampleF sampleFaces dirUp sampleSF = some sampleSF' := by
  rw [sampleSF']
  norm_num [walk_faces, walk_single_face, walkCore, sampleF, sampleFaces, dirUp,
    sampleSF, consider, neighborFaces, dedupFirst, deltaTo, sqQ, dotQ, dotGE,
    scoreGtB, ratSqrtGt, scoreNumQ, selectedF, finalSelF, finalOf, movedOf,
    targetsOf, newActiveF, activeTargetF, activeFfix, fixActiveF, SelState.active,
    List.filter, Finset.filter_singleton, Finset.biUnion_singleton]

/-- Convergence topology: vertices 0 and 1 both have vertex 2 as their
only neighbor. -/
def convV : VTopo where
  nbrs := fun v => if v = 2 then [] else [2]
  proj := fun v =>
    if v = 0 then some (0, 0)
    else if v = 1 then some (1, 0)
    else if v = 2 then some (0, 10)
    else none

/-- Convergence start state: vertices 0 and 1 selected. -/
def convS : SelState where
  selV := {0, 1}
  selE := ∅
  selF := ∅
  hist := []

/-- Convergence committed state: both origins collapse onto vertex 2. -/
def convS' : SelState where
  selV := {2}
  selE := ∅
  selF := ∅
  hist := [Elem.vert 2]

/-- Convergence evaluation: two origins, one shared target, a strictly
smaller committed selection. -/
lemma conv_commit : walk_vertices convV [0, 1, 2] dirUp convS = some convS' := by
  rw [convS']
  norm_num [walk_vertices, walk_single_vertex, walkCore, convV, dirUp,
    convS, consider, deltaTo, sqQ, dotQ, dotGE, scoreGtB, ratSqrtGt,
    scoreNumQ, selectedV, finalSelV, finalOf, movedOf, targetsOf, newActiveV,
    activeTargetV, activeVfix, fixActiveV, SelState.active, List.filter,
    Finset.filter_insert, Finset.filter_singleton, Finset.biUnion_insert,
    Finset.biUnion_singleton, Finset.sdiff_self]
  intro hcontra
  exact absurd hcontra (by simp)

/-- On a commit with well-formed selection flags, the committed vertex
selection is the source's set formula over the current selection. -/
lemma commit_selV_eq (T : VTopo) (verts : List Nat) (dir : Pt) (s s' : SelState)
    (hwf : s.selV ⊆ verts.toFinset) (h : walk_vertices T verts dir s = some s') :
    s'.selV = (s.selV \ movedOf (walk_single_vertex T dir) s.selV) ∪
      targetsOf (walk_single_vertex T dir) s.selV := by
  obtain ⟨hsel, rfl⟩ := walk_vertices_eq_some T verts dir s s' h
  show insert (newActiveV T verts dir s) (finalSelV T verts dir s) = _
  have hmem := newActiveV_mem_final T verts dir s hwf hsel
  rw [Finset.insert_eq_self.mpr hmem, finalSelV, selectedV_toFinset verts s hwf,
    finalOf]

lemma commit_selF_eq (T : FTopo) (faces : List Nat) (dir : Pt) (s s' : SelState)
    (hwf : s.selF ⊆ faces.toFinset) (h : walk_faces T faces dir s = some s') :
    s'.selF = (s.selF \ movedOf (walk_single_face T dir) s.selF) ∪
      targetsOf (walk_single_face T dir) s.selF := by
  obtain ⟨hsel, rfl⟩ := walk_faces_eq_some T faces dir s s' h
  show insert (newActiveF T faces dir s) (finalSelF T faces dir s) = _
  have hmem := newActiveF_mem_final T faces dir s hwf hsel
  rw [Finset.insert_eq_self.mpr hmem, finalSelF, selectedF_toFinset faces s hwf,
    finalOf]

/-- C1: for every non-empty current selection and direction, the
committed new selection equals (currentSelection − moved) ∪ targets with
membership deduplicated by identity: every origin that found a target is
replaced by that target, every origin with no target stays selected, and
converging origins contribute one element.  (Both the vertex and the
face transition; the subset hypotheses are the bmesh well-formedness of
selection flags.) -/
theorem C1_commit_formula :
    (∀ (T : VTopo) (verts : List Nat) (dir : Pt) (s s' : SelState),
      s.selV ⊆ verts.toFinset →
      walk_vertices T verts dir s = some s' →
      s'.selV = (s.selV \ movedOf (walk_single_vertex T dir) s.selV) ∪
        targetsOf (walk_single_vertex T dir) s.selV) ∧
    (∀ (T : FTopo) (faces : List Nat) (dir : Pt) (s s' : SelState),
      s.selF ⊆ faces.toFinset →
      walk_faces T faces dir s = some s' →
      s'.selF = (s.selF \ movedOf (walk_single_face T dir) s.selF) ∪
        targetsOf (walk_single_face T dir) s.selF) :=
  ⟨commit_selV_eq, commit_selF_eq⟩

/-- Witness for C1 at the §8 scenario and at the convergence scenario
(two origins, one shared target, deduplicated to one element). -/
theorem C1_commit_formula_witness :
    sampleS'.selV = (sampleS.selV \ movedOf (walk_single_vertex sampleV dirUp) sampleS.selV) ∪
      targetsOf (walk_single_vertex sampleV dirUp) sampleS.selV ∧
    convS'.selV = (convS.selV \ movedOf (walk_single_vertex convV dirUp) convS.selV) ∪
      targetsOf (walk_single_vertex convV dirUp) convS.selV :=
  ⟨C1_commit_formula.1 sampleV sampleVerts dirUp sampleS sampleS'
      (by simp [sampleS, sampleVerts]) sample_commit,
   C1_commit_formula.1 convV [0, 1, 2] dirUp convS convS'
      (by simp [convS]) conv_commit⟩

/-- C9: a commit selects exactly the computed new selection in the
walked kind, deselects every element of the other kinds (edges and the
other of vertex/face), and replaces the selection-history stack with the
single new active element. -/
theorem C9_commit_frame :
    (∀ (T : VTopo) (verts : List Nat) (dir : Pt) (s s' : SelState),
      s.selV ⊆ verts.toFinset →
      walk_vertices T verts dir s = some s' →
      s'.selV = (s.selV \ movedOf (walk_single_vertex T dir) s.selV) ∪
        targetsOf (walk_single_vertex T dir) s.selV ∧
      s'.selE = ∅ ∧ s'.selF = ∅ ∧
      s'.hist = [Elem.vert (newActiveV T verts dir s)]) ∧
    (∀ (T : FTopo) (faces : List Nat) (dir : Pt) (s s' : SelState),
      s.selF ⊆ faces.toFinset →
      walk_faces T faces dir s = some s' →
      s'.selF = (s.selF \ movedOf (walk_single_face T dir) s.selF) ∪
        targetsOf (walk_single_face T dir) s.selF ∧
      s'.selV = ∅ ∧ s'.selE = ∅ ∧
      s'.hist = [Elem.face (newActiveF T faces dir s)]) := by
  constructor
  · intro T verts dir s s' hwf h
    have hsel := commit_selV_eq T verts dir s s' hwf h
    obtain ⟨_, rfl⟩ := walk_vertices_eq_some T verts dir s s' h
    exact ⟨hsel, rfl, rfl, rfl⟩
  · intro T faces dir s s' hwf h
    have hsel := commit_selF_eq T faces dir s s' hwf h
    obtain ⟨_, rfl⟩ := walk_faces_eq_some T faces dir s s' h
    exact ⟨hsel, rfl, rfl, rfl⟩

/-- Witness for C9 at the §8 scenarios (vertex and face kinds). -/
theorem C9_commit_frame_witness :
    (sampleS'.selV = (sampleS.selV \ movedOf (walk_single_vertex sampleV dirUp) sampleS.selV) ∪
        targetsOf (walk_single_vertex sampleV dirUp) sampleS.selV ∧
      sampleS'.selE = ∅ ∧ sampleS'.selF = ∅ ∧
      sampleS'.hist = [Elem.vert (newActiveV sampleV sampleVerts dirUp sampleS)]) ∧
    (sampleSF'.selF = (sampleSF.selF \ movedOf (walk_single_face sampleF dirUp) sampleSF.selF) ∪
        targetsOf (walk_single_face sampleF dirUp) sampleSF.selF ∧
      sampleSF'.selV = ∅ ∧ sampleSF'.selE = ∅ ∧
      sampleSF'.hist = [Elem.face (newActiveF sampleF sampleFaces dirUp sampleSF)]) :=
  ⟨C9_commit_frame.1 sampleV sampleVerts dirUp sampleS sampleS'
      (by simp [sampleS, sampleVerts]) sample_commit,
   C9_commit_frame.2 sampleF sampleFaces dirUp sampleSF sampleSF'
      (by simp [sampleSF, sampleFaces]) sampleF_commit⟩

/-- C5: whenever an invocation commits, the new active element is a
member of the new selection set; it is the (fixed-up) active's target
when the active found one, and otherwise the active is unmoved, stays
active and stays selected. -/
theorem C5_new_active :
    (∀ (T : VTopo) (verts : List Nat) (dir : Pt) (s s' : SelState),
      s.selV ⊆ verts.toFinset →
      walk_vertices T verts dir s = some s' →
      s'.hist = [Elem.vert (newActiveV T verts dir s)] ∧
      newActiveV T verts dir s ∈ s'.selV ∧
      (∀ t, walk_single_vertex T dir (activeVfix verts s) = some t →
        newActiveV T verts dir s = t) ∧
      (walk_single_vertex T dir (activeVfix verts s) = none →
        newActiveV T verts dir s = activeVfix verts s ∧
        activeVfix verts s ∈ s'.selV)) ∧
    (∀ (T : FTopo) (faces : List Nat) (dir : Pt) (s s' : SelState),
      s.selF ⊆ faces.toFinset →
      walk_faces T faces dir s = some s' →
      s'.hist = [Elem.face (newActiveF T faces dir s)] ∧
      newActiveF T faces dir s ∈ s'.selF ∧
      (∀ t, walk_single_face T dir (activeFfix faces s) = some t →
        newActiveF T faces dir s = t) ∧
      (walk_single_face T dir (activeFfix faces s) = none →
        newActiveF T faces dir s = activeFfix faces s ∧
        activeFfix faces s ∈ s'.selF)) := by
  constructor
  · intro T verts dir s s' hwf h
    obtain ⟨hsel, rfl⟩ := walk_vertices_eq_some T verts dir s s' h
    have hmemsel := activeVfix_mem verts s hwf hsel
    refine ⟨rfl, Finset.mem_insert_self _ _, ?_, ?_⟩
    · intro t ht
      rw [newActiveV, activeTargetV, if_pos hmemsel, ht]
      rfl
    · intro hnone
      have hna : newActiveV T verts dir s = activeVfix verts s := by
        rw [newActiveV, activeTargetV, if_pos hmemsel, hnone]
        rfl
      refine ⟨hna, ?_⟩
      show activeVfix verts s ∈
        insert (newActiveV T verts dir s) (finalSelV T verts dir s)
      rw [← hna]
      exact Finset.mem_insert_self _ _
  · intro T faces dir s s' hwf h
    obtain ⟨hsel, rfl⟩ := walk_faces_eq_some T faces dir s s' h
    have hmemsel := activeFfix_mem faces s hwf hsel
    refine ⟨rfl, Finset.mem_insert_self _ _, ?_, ?_⟩
    · intro t ht
      rw [newActiveF, activeTargetF, if_pos hmemsel, ht]
      rfl
    · intro hnone
      have hna : newActiveF T faces dir s = activeFfix faces s := by
        rw [newActiveF, activeTargetF, if_pos hmemsel, hnone]
        rfl
      refine ⟨hna, ?_⟩
      show activeFfix faces s ∈
        insert (newActiveF T faces dir s) (finalSelF T faces dir s)
      rw [← hna]
      exact Finset.mem_insert_self _ _

/-- Witness for C5 at the §8 scenario (vertex kind). -/
theorem C5_new_active_witness :
    sampleS'.hist = [Elem.vert (newActiveV sampleV sampleVerts dirUp sampleS)] ∧
    newActiveV sampleV sampleVerts dirUp sampleS ∈ sampleS'.selV :=
  have h := C5_new_active.1 sampleV sampleVerts dirUp sampleS sampleS'
    (by simp [sampleS, sampleVerts]) sample_commit
  ⟨h.1, h.2.1⟩

/-- C6: the committed new selection never has more elements than the
current selection, for both kinds. -/
theorem C6_card_le :
    (∀ (T : VTopo) (verts : List Nat) (dir : Pt) (s s' : SelState),
      s.selV ⊆ verts.toFinset →
      walk_vertices T verts dir s = some s' →
      s'.selV.card ≤ s.selV.card) ∧
    (∀ (T : FTopo) (faces : List Nat) (dir : Pt) (s s' : SelState),
      s.selF ⊆ faces.toFinset →
      walk_faces T faces dir s = some s' →
      s'.selF.card ≤ s.selF.card) := by
  constructor
  · intro T verts dir s s' hwf h
    have heq := commit_selV_eq T verts dir s s' hwf h
    calc s'.selV.card
        = (finalOf (walk_single_vertex T dir) s.selV).card := by rw [heq, finalOf]
      _ ≤ s.selV.card := finalOf_card_le _ _
  · intro T faces dir s s' hwf h
    have heq := commit_selF_eq T faces dir s s' hwf h
    calc s'.selF.card
        = (finalOf (walk_single_face T dir) s.selF).card := by rw [heq, finalOf]
      _ ≤ s.selF.card := finalOf_card_le _ _

/-- Witness for C6 at the convergence scenario: two origins collapse to
one target, so the committed selection is strictly smaller (1 ≤ 2). -/
theorem C6_card_le_witness :
    convS'.selV.card ≤ convS.selV.card :=
  C6_card_le.1 convV [0, 1, 2] dirUp convS convS' (by simp [convS]) conv_commit

/-- C10: every member of a committed new selection is a member of the
old selection or a topological neighbor of a member of the old
selection (a vertex joined by a linked edge, or a face sharing an edge
with an origin, itself excluded). -/
theorem C10_locality :
    (∀ (T : VTopo) (verts : List Nat) (dir : Pt) (s s' : SelState) (x : Nat),
      walk_vertices T verts dir s = some s' →
      x ∈ s'.selV →
      x ∈ s.selV ∨ ∃ v ∈ s.selV, x ∈ T.nbrs v) ∧
    (∀ (T : FTopo) (faces : List Nat) (dir : Pt) (s s' : SelState) (x : Nat),
      walk_faces T faces dir s = some s' →
      x ∈ s'.selF →
      x ∈ s.selF ∨ ∃ f ∈ s.selF, ∃ e ∈ T.fedges f, x ∈ T.elinkFaces e ∧ x ≠ f) := by
  constructor
  · intro T verts dir s s' x h hx
    obtain ⟨hsel, rfl⟩ := walk_vertices_eq_some T verts dir s s' h
    have hselV : ∀ y, y ∈ (selectedV verts s).toFinset → y ∈ s.selV := fun y hy =>
      ((mem_selectedV_toFinset verts s y).mp hy).2
    have hx' : x ∈ insert (newActiveV T verts dir s) (finalSelV T verts dir s) := hx
    rcases Finset.mem_insert.mp hx' with hxa | hxf
    · by_cases hc : activeVfix verts s ∈ (selectedV verts s).toFinset
      · cases hw : walk_single_vertex T dir (activeVfix verts s) with
        | none =>
            have hna : newActiveV T verts dir s = activeVfix verts s := by
              rw [newActiveV, activeTargetV, if_pos hc, hw]
              rfl
            rw [hxa, hna]
            exact Or.inl (activeVfix_mem_selV verts s hsel)
        | some t =>
            have hna : newActiveV T verts dir s = t := by
              rw [newActiveV, activeTargetV, if_pos hc, hw]
              rfl
            rw [hxa, hna]
            exact Or.inr ⟨activeVfix verts s, hselV _ hc,
              walkCore_mem T.nbrs T.proj dir _ t hw⟩
      · have hna : newActiveV T verts dir s = activeVfix verts s := by
          rw [newActiveV, activeTargetV, if_neg hc]
          rfl
        rw [hxa, hna]
        exact Or.inl (activeVfix_mem_selV verts s hsel)
    · rw [finalSelV] at hxf
      rcases (mem_finalOf _ _ _).mp hxf with ⟨hxo, _⟩ | ⟨v, hv, hw⟩
      · exact Or.inl (hselV _ hxo)
      · exact Or.inr ⟨v, hselV _ hv, walkCore_mem T.nbrs T.proj dir v x hw⟩
  · intro T faces dir s s' x h hx
    obtain ⟨hsel, rfl⟩ := walk_faces_eq_some T faces dir s s' h
    have hselF : ∀ y, y ∈ (selectedF faces s).toFinset → y ∈ s.selF := fun y hy =>
      ((mem_selectedF_toFinset faces s y).mp hy).2
    have hx' : x ∈ insert (newActiveF T faces dir s) (finalSelF T faces dir s) := hx
    rcases Finset.mem_insert.mp hx' with hxa | hxf
    · by_cases hc : activeFfix faces s ∈ (selectedF faces s).toFinset
      · cases hw : walk_single_face T dir (activeFfix faces s) with
        | none =>
            have hna : newActiveF T faces dir s = activeFfix faces s := by
              rw [newActiveF, activeTargetF, if_pos hc, hw]
              rfl
            rw [hxa, hna]
            exact Or.inl (activeFfix_mem_selF faces s hsel)
        | some t =>
            have hna : newActiveF T faces dir s = t := by
              rw [newActiveF, activeTargetF, if_pos hc, hw]
              rfl
            rw [hxa, hna]
            refine Or.inr ⟨activeFfix faces s, hselF _ hc, ?_⟩
            exact (mem_neighborFaces T _ t).mp
              (walkCore_mem (neighborFaces T) T.proj dir _ t hw)
      · have hna : newActiveF T faces dir s = activeFfix faces s := by
          rw [newActiveF, activeTargetF, if_neg hc]
          rfl
        rw [hxa, hna]
        exact Or.inl (activeFfix_mem_selF faces s hsel)
    · rw [finalSelF] at hxf
      rcases (mem_finalOf _ _ _).mp hxf with ⟨hxo, _⟩ | ⟨f, hf, hw⟩
      · exact Or.inl (hselF _ hxo)
      · refine Or.inr ⟨f, hselF _ hf, ?_⟩
        exact (mem_neighborFaces T f x).mp
          (walkCore_mem (neighborFaces T) T.proj dir f x hw)

/-- Witness for C10 at the §8 scenarios: the committed vertex 1 (resp.
face 1) is a neighbor of a previously selected element. -/
theorem C10_locality_witness :
    (1 ∈ sampleS.selV ∨ ∃ v ∈ sampleS.selV, 1 ∈ sampleV.nbrs v) ∧
    (1 ∈ sampleSF.selF ∨
      ∃ f ∈ sampleSF.selF, ∃ e ∈ sampleF.fedges f,
        1 ∈ sampleF.elinkFaces e ∧ 1 ≠ f) :=
  ⟨C10_locality.1 sampleV sampleVerts dirUp sampleS sampleS' 1 sample_commit
      (by simp [sampleS']),
   C10_locality.2 sampleF sampleFaces dirUp sampleSF sampleSF' 1 sampleF_commit
      (by simp [sampleSF'])⟩

/-- The vertex walker finds no target in the isolated topology. -/
lemma iso_walk_none : walk_single_vertex isoV dirUp 0 = none := by
  simp [walk_single_vertex, walkCore, isoV]

/-- C4 counterexample: in the isolated topology every origin fails to
find a target, yet the invocation does not cancel: it commits a new
state, and that state differs from the start state (the edge selection
is cleared and the history is rewritten), refuting "cancels and leaves
the current selection and active unchanged". -/
theorem C4_counterexample :
    walk_single_vertex isoV dirUp 0 = none ∧
    isoS.selV = {0} ∧
    walk_vertices isoV [0] dirUp isoS = some isoS' ∧
    isoS' ≠ isoS := by
  refine ⟨iso_walk_none, rfl, iso_commit, ?_⟩
  intro hcontra
  have he : isoS'.selE = isoS.selE := by rw [hcontra]
  simp only [isoS', isoS] at he
  exact absurd he.symm (Finset.singleton_ne_empty 5)

/-- C4 amended: when every origin has no admissible neighbor, the
invocation does not cancel.  It commits: the walked kind's selection
set is unchanged (every origin stays selected), but the other kinds'
selections are cleared and the history is replaced with the fixed-up
active element. -/
theorem C4_amended :
    (∀ (T : VTopo) (verts : List Nat) (dir : Pt) (s : SelState),
      s.selV ⊆ verts.toFinset → selectedV verts s ≠ [] →
      (∀ v ∈ s.selV, walk_single_vertex T dir v = none) →
      walk_vertices T verts dir s =
        some { selV := s.selV, selE := ∅, selF := ∅,
               hist := [Elem.vert (activeVfix verts s)] }) ∧
    (∀ (T : FTopo) (faces : List Nat) (dir : Pt) (s : SelState),
      s.selF ⊆ faces.toFinset → selectedF faces s ≠ [] →
      (∀ f ∈ s.selF, walk_single_face T dir f = none) →
      walk_faces T faces dir s =
        some { selV := ∅, selE := ∅, selF := s.selF,
               hist := [Elem.face (activeFfix faces s)] }) := by
  constructor
  · intro T verts dir s hwf hsel hall
    rw [walk_vertices_commit T verts dir s hsel]
    have hfix : activeVfix verts s ∈ s.selV := activeVfix_mem_selV verts s hsel
    have hfinal : finalSelV T verts dir s = s.selV := by
      rw [finalSelV, selectedV_toFinset verts s hwf]
      exact finalOf_all_none _ _ hall
    have hna : newActiveV T verts dir s = activeVfix verts s := by
      rw [newActiveV, activeTargetV, if_pos (activeVfix_mem verts s hwf hsel),
        hall _ hfix]
      rfl
    rw [hfinal, hna, Finset.insert_eq_self.mpr hfix]
  · intro T faces dir s hwf hsel hall
    rw [walk_faces_commit T faces dir s hsel]
    have hfix : activeFfix faces s ∈ s.selF := activeFfix_mem_selF faces s hsel
    have hfinal : finalSelF T faces dir s = s.selF := by
      rw [finalSelF, selectedF_toFinset faces s hwf]
      exact finalOf_all_none _ _ hall
    have hna : newActiveF T faces dir s = activeFfix faces s := by
      rw [newActiveF, activeTargetF, if_pos (activeFfix_mem faces s hwf hsel),
        hall _ hfix]
      rfl
    rw [hfinal, hna, Finset.insert_eq_self.mpr hfix]

/-- Witness for the amended C4 in the isolated topology. -/
theorem C4_amended_witness :
    walk_vertices isoV [0] dirUp isoS =
      some { selV := isoS.selV, selE := ∅, selF := ∅,
             hist := [Elem.vert (activeVfix [0] isoS)] } :=
  C4_amended.1 isoV [0] dirUp isoS (by simp [isoS])
    (by norm_num [selectedV, isoS])
    (fun v hv => by
      have hv0 : v = 0 := by simpa [isoS] using hv
      rw [hv0]
      exact iso_walk_none)

/-- C2: the per-origin walker returns None for an unprojectable origin;
with a projectable origin it returns None iff no neighbor is admissible
(unprojectable neighbors being inadmissible, hence skipped), and a
returned target is an admissible neighbor of strictly highest real
score, the first enumerated one winning exact score ties.  (Vertex and
face walkers.) -/
theorem C2_walker_spec :
    (∀ (T : VTopo) (dir : Pt) (v : Nat),
      (T.proj v = none → walk_single_vertex T dir v = none) ∧
      (∀ a2d, T.proj v = some a2d →
        (walk_single_vertex T dir v = none ↔
          ∀ n ∈ T.nbrs v, admB T.proj dir a2d n = false) ∧
        (∀ t, walk_single_vertex T dir v = some t →
          admB T.proj dir a2d t = true ∧
          ∃ l1 l2, T.nbrs v = l1 ++ t :: l2 ∧
            (∀ n ∈ l1, admB T.proj dir a2d n = true →
              candScoreR T.proj dir a2d n < candScoreR T.proj dir a2d t) ∧
            (∀ n ∈ l2, admB T.proj dir a2d n = true →
              candScoreR T.proj dir a2d n ≤ candScoreR T.proj dir a2d t)))) ∧
    (∀ (T : FTopo) (dir : Pt) (f : Nat),
      (T.proj f = none → walk_single_face T dir f = none) ∧
      (∀ a2d, T.proj f = some a2d →
        (walk_single_face T dir f = none ↔
          ∀ n ∈ neighborFaces T f, admB T.proj dir a2d n = false) ∧
        (∀ t, walk_single_face T dir f = some t →
          admB T.proj dir a2d t = true ∧
          ∃ l1 l2, neighborFaces T f = l1 ++ t :: l2 ∧
            (∀ n ∈ l1, admB T.proj dir a2d n = true →
              candScoreR T.proj dir a2d n < candScoreR T.proj dir a2d t) ∧
            (∀ n ∈ l2, admB T.proj dir a2d n = true →
              candScoreR T.proj dir a2d n ≤ candScoreR T.proj dir a2d t)))) := by
  constructor
  · intro T dir v
    refine ⟨fun h => walkCore_proj_none T.nbrs T.proj dir v h,
      fun a2d ha => ⟨walkCore_none_iff T.nbrs T.proj dir v a2d ha, ?_⟩⟩
    intro t ht
    exact walkCore_some T.nbrs T.proj dir v a2d t ha ht
  · intro T dir f
    refine ⟨fun h => walkCore_proj_none (neighborFaces T) T.proj dir f h,
      fun a2d ha => ⟨walkCore_none_iff (neighborFaces T) T.proj dir f a2d ha, ?_⟩⟩
    intro t ht
    exact walkCore_some (neighborFaces T) T.proj dir f a2d t ha ht

/-- Witness for C2 at the §8 scenarios: the returned vertex (resp.
face) target 1 is admissible. -/
theorem C2_walker_spec_witness :
    admB sampleV.proj dirUp (0, 0) 1 = true ∧
    admB sampleF.proj dirUp (0, 0) 1 = true :=
  ⟨(((C2_walker_spec.1 sampleV dirUp 0).2 (0, 0) (by simp [sampleV])).2 1
      sample_walk_vertex).1,
   (((C2_walker_spec.2 sampleF dirUp 0).2 (0, 0) (by simp [sampleF])).2 1
      sample_walk_face).1⟩

lemma sqrt100 : Real.sqrt 100 = 10 := by
  rw [show (100:ℝ) = 10 ^ 2 by norm_num]
  exact Real.sqrt_sq (by norm_num)

lemma sqrt98 : Real.sqrt 98 = 7 * Real.sqrt 2 := by
  rw [show (98:ℝ) = 7 ^ 2 * 2 by norm_num,
    Real.sqrt_mul (by positivity : (0:ℝ) ≤ 7 ^ 2),
    Real.sqrt_sq (by norm_num : (0:ℝ) ≤ 7)]

/-- Score of the straight-up neighbor in the §8 scenario. -/
lemma score_up : scoreR (0, 10) dirUp = 0 := by
  have h : ((sqQ (0, 10) : ℚ) : ℝ) = 100 := by norm_num [sqQ]
  have hd : ((dotQ (0, 10) dirUp : ℚ) : ℝ) = 10 := by norm_num [dotQ, dirUp]
  rw [scoreR, dotR, h, hd, sqrt100]
  norm_num

/-- Score of the diagonal neighbor in the §8 scenario: exactly −2√2. -/
lemma score_diag : scoreR (7, 7) dirUp = -2 * Real.sqrt 2 := by
  have h : ((sqQ (7, 7) : ℚ) : ℝ) = 98 := by norm_num [sqQ]
  have hd : ((dotQ (7, 7) dirUp : ℚ) : ℝ) = 7 := by norm_num [dotQ, dirUp]
  rw [scoreR, dotR, h, hd, sqrt98]
  have h2 : (0:ℝ) < Real.sqrt 2 := Real.sqrt_pos.mpr (by norm_num)
  have hs : Real.sqrt 2 * Real.sqrt 2 = 2 := Real.mul_self_sqrt (by norm_num)
  field_simp
  nlinarith [hs, h2]

/-- C3: the candidate scorer: the delta is candidate − origin; a
candidate is admissible iff its delta is nonzero and the normalized dot
with the direction is at least 0.3; the score of an admissible delta is
10·dot − |delta|; and in the §8 scenario both (0,10) and (7,7) are
admissible with scores 0 and −2√2 ≈ −2.83, so the walker picks the
(0,10) neighbor. -/
theorem C3_scorer :
    (∀ o c : Pt, deltaTo o c = (c.1 - o.1, c.2 - o.2)) ∧
    (∀ d dir : Pt, admDelta d dir = true ↔
      (d ≠ (0, 0) ∧ (3 / 10 : ℝ) ≤ dotR d dir)) ∧
    (∀ d dir : Pt, scoreR d dir = dotR d dir * 10 - Real.sqrt (sqQ d)) ∧
    admDelta (0, 10) dirUp = true ∧
    admDelta (7, 7) dirUp = true ∧
    scoreR (0, 10) dirUp = 0 ∧
    scoreR (7, 7) dirUp = -2 * Real.sqrt 2 ∧
    |scoreR (7, 7) dirUp + 283 / 100| < 1 / 100 ∧
    walk_single_vertex sampleV dirUp 0 = some 1 := by
  have hadm : ∀ d dir : Pt, admDelta d dir = true ↔
      (d ≠ (0, 0) ∧ (3 / 10 : ℝ) ≤ dotR d dir) := by
    intro d dir
    by_cases hz : sqQ d = 0
    · have hd0 : d = (0, 0) := (sqQ_eq_zero_iff d).mp hz
      constructor
      · intro hcontra
        exfalso
        simp [admDelta, hz] at hcontra
      · rintro ⟨hne, _⟩
        exact absurd hd0 hne
    · have hne : d ≠ (0, 0) := fun hc => hz ((sqQ_eq_zero_iff d).mpr hc)
      simp only [admDelta, Bool.and_eq_true, decide_eq_true_eq]
      rw [dotGE_iff d dir hz]
      exact ⟨fun h => ⟨hne, h.2⟩, fun h => ⟨hz, h.2⟩⟩
  have hbound : |scoreR (7, 7) dirUp + 283 / 100| < 1 / 100 := by
    rw [score_diag, abs_lt]
    have hlt : Real.sqrt 2 < 1.42 := by
      rw [Real.sqrt_lt' (by norm_num)]
      norm_num
    have hgt : (1.41 : ℝ) < Real.sqrt 2 := by
      rw [Real.lt_sqrt (by norm_num)]
      norm_num
    constructor <;> nlinarith [hlt, hgt]
  refine ⟨fun o c => rfl, hadm, fun d dir => rfl, ?_, ?_,
    score_up, score_diag, hbound, sample_walk_vertex⟩
  · rw [hadm]
    constructor
    · simp
    · have h : ((sqQ ((0 : ℚ), (10 : ℚ)) : ℚ) : ℝ) = 100 := by norm_num [sqQ]
      have hd : ((dotQ ((0 : ℚ), (10 : ℚ)) dirUp : ℚ) : ℝ) = 10 := by
        norm_num [dotQ, dirUp]
      rw [dotR, h, hd, sqrt100]
      norm_num
  · rw [hadm]
    constructor
    · simp
    · have h : ((sqQ ((7 : ℚ), (7 : ℚ)) : ℚ) : ℝ) = 98 := by norm_num [sqQ]
      have hd : ((dotQ ((7 : ℚ), (7 : ℚ)) dirUp : ℚ) : ℝ) = 7 := by
        norm_num [dotQ, dirUp]
      rw [dotR, h, hd, sqrt98]
      have h2 : (0:ℝ) < Real.sqrt 2 := Real.sqrt_pos.mpr (by norm_num)
      have hs : Real.sqrt 2 * Real.sqrt 2 = 2 := Real.mul_self_sqrt (by norm_num)
      rw [div_le_div_iff₀ (by norm_num) (by positivity)]
      nlinarith [hs, h2]

end Pickwalk
